import Mathlib

/-! Shallow embedding of the Docker Hub image-size fetcher
    (fetch-real-sizes.py) of the game-library-manager-web repository:
    per-page fetching with retry and exponential backoff, pagination,
    tag-size aggregation, and reconciliation of the aggregated sizes
    against the games.json id list and the prior image-sizes.json
    snapshot. Sizes are modelled as exact rationals. -/

/-- Python dict with string keys and numeric values, as an association
    list in insertion order. -/
abbrev SizeMap := List (String × ℚ)

/-- Python dict assignment `d[k] = v`: update in place when the key is
    already present, otherwise append at the end. -/
def dictInsert : SizeMap → String → ℚ → SizeMap
  | [], k, v => [(k, v)]
  | (a, b) :: t, k, v => if a = k then (a, v) :: t else (a, b) :: dictInsert t k v

/-- Python `k in d` membership test and `d[k]` lookup, combined. -/
def dictFind (k : String) : SizeMap → Option ℚ
  | [] => none
  | (a, b) :: t => if a = k then some b else dictFind k t

/-- Key list of a dict, in insertion order. -/
def dictKeys (m : SizeMap) : List String := m.map Prod.fst

/-- Python `round` to an integer on an exact rational: round to the
    nearest integer, ties going to the even neighbour. -/
def pyRoundInt (q : ℚ) : ℤ :=
  if q - ⌊q⌋ < 1 / 2 then ⌊q⌋
  else if 1 / 2 < q - ⌊q⌋ then ⌊q⌋ + 1
  else if ⌊q⌋ % 2 = 0 then ⌊q⌋ else ⌊q⌋ + 1

/-- Python `round(q, 2)` on an exact rational. -/
def round2 (q : ℚ) : ℚ := (pyRoundInt (q * 100) : ℚ) / 100

/-- One entry of a tag record's `images` array; `img.get('size', 0)`
    reads its optional size field. -/
structure ImageRec where
  size : Option ℚ
deriving DecidableEq

/-- One tag record of a page: a `name`, an optional integer `full_size`
    (an absent field reads as 0), and an optional `images` list (an
    absent field reads as the empty list). -/
structure TagRec where
  name : String
  full_size : Option ℤ
  images : List ImageRec
deriving DecidableEq

/-- Line 59: `tag.get('full_size', 0)`. -/
def TagRec.fullSize0 (t : TagRec) : ℤ := t.full_size.getD 0

/-- Line 66: the sum of `img.get('size', 0)` over the images array. -/
def TagRec.imagesSum (t : TagRec) : ℚ := (t.images.map (fun i => i.size.getD 0)).sum

/-- Lines 59-66: the effective size of a tag after the fallback:
    `full_size`, unless that equals 0, in which case the images sizes are
    summed when the images list is nonempty. -/
def TagRec.effSize (t : TagRec) : ℚ :=
  if t.fullSize0 = 0 then
    if t.images = [] then 0 else t.imagesSum
  else (t.fullSize0 : ℚ)

/-- Lines 56-71: absorb one tag record into the `all_tags` mapping. -/
def absorbTag (m : SizeMap) (t : TagRec) : SizeMap :=
  if t.name ≠ "" ∧ 0 < t.effSize then
    dictInsert m t.name (round2 (t.effSize / (1024 ^ 3 : ℚ)))
  else m

/-- Lines 56-71: absorb all tag records of one page, in order. -/
def absorbPage (m : SizeMap) (results : List TagRec) : SizeMap :=
  results.foldl absorbTag m

/-- A successfully fetched and parsed page body: the `results` records
    and the truthiness of the `next` field. -/
structure PageData where
  results : List TagRec
  next : Bool
deriving DecidableEq

/-- Outcomes of the GET attempts for one page: attempt `i` either yields
    a parsed body or fails (network error, timeout, or bad status). -/
abbrev Attempts := ℕ → Option PageData

/-- Lines 37-50: the retry loop, at retry index `r` with `left` retries
    remaining; it sleeps `2 ^ (r + 1)` seconds, then makes attempt
    `r + 1`. Returns the sleep trace and the final outcome. -/
def retryGo (att : Attempts) : ℕ → ℕ → List ℕ × Option PageData
  | _, 0 => ([], none)
  | r, left + 1 =>
    match att (r + 1) with
    | some d => ([2 ^ (r + 1)], some d)
    | none =>
      let p := retryGo att (r + 1) left
      (2 ^ (r + 1) :: p.1, p.2)

/-- Lines 30-50: fetch one page: an initial attempt, then up to 3 retries
    with exponential backoff. Returns the sleep trace and the outcome,
    where `none` is terminal failure. -/
def fetchPage (att : Attempts) : List ℕ × Option PageData :=
  match att 0 with
  | some d => ([], some d)
  | none => retryGo att 0 3

/-- Network behaviour of the registry: for each page number, the outcome
    of each GET attempt for that page. -/
abbrev Env := ℕ → Attempts

/-- Lines 27-83: the pagination loop of fetch_all_tags, with explicit
    fuel standing for the unbounded while-loop. Returns the list of page
    numbers fetched and the aggregated mapping, or `none` when the fuel
    runs out before the loop terminates on its own. -/
def crawlAux (env : Env) : ℕ → ℕ → SizeMap → Option (List ℕ × SizeMap)
  | 0, _, _ => none
  | fuel + 1, page, acc =>
    match (fetchPage (env page)).2 with
    | none => some ([page], acc)
    | some d =>
      if d.results = [] then some ([page], acc)
      else
        let acc2 := absorbPage acc d.results
        if d.next then
          match crawlAux env fuel (page + 1) acc2 with
          | none => none
          | some (tr, m) => some (page :: tr, m)
        else some ([page], acc2)

/-- Lines 19-83: fetch_all_tags crawls starting at page 1 with an empty
    mapping. -/
def fetch_all_tags (env : Env) (fuel : ℕ) : Option (List ℕ × SizeMap) :=
  crawlAux env fuel 1 []

/-- Lines 114-133: the reconciliation loop over the raw games id list,
    accumulating final_sizes, found_count and missing_count. -/
def reconcileAux (hub ex : SizeMap) :
    List String → SizeMap → ℕ → ℕ → SizeMap × ℕ × ℕ
  | [], final, found, missing => (final, found, missing)
  | id :: rest, final, found, missing =>
    match dictFind id hub with
    | some v => reconcileAux hub ex rest (dictInsert final id v) (found + 1) missing
    | none =>
      match dictFind id ex with
      | some v => reconcileAux hub ex rest (dictInsert final id v) found (missing + 1)
      | none => reconcileAux hub ex rest (dictInsert final id 0) found (missing + 1)

/-- Lines 114-133: reconcile the games id list against the aggregated
    hub sizes and the existing snapshot. -/
def reconcile (games : List String) (hub ex : SizeMap) : SizeMap × ℕ × ℕ :=
  reconcileAux hub ex games [] 0 0

/-- Observable actions of one run: starting the fetch of a page, and
    writing the output file. -/
inductive MainEvent
  | fetchStart (page : ℕ)
  | writeOutput
deriving DecidableEq

/-- Model of main (lines 85-137). games.json is read first; an absent
    file is caught, a warning is printed and `expected_ids` is set empty,
    but the local `games` stays unbound. fetch_all_tags then crawls the
    registry and the snapshot is read (an absent snapshot means an empty
    mapping). Reconciliation then iterates `games`, which raises an
    uncaught NameError when games.json was absent, so the output write at
    line 136 is never reached in that case. -/
def mainRun (gamesFile : Option (List String)) (env : Env) (fuel : ℕ)
    (snapshotFile : Option SizeMap) :
    Option (List MainEvent × Except Unit (SizeMap × ℕ × ℕ)) :=
  match fetch_all_tags env fuel with
  | none => none
  | some (tr, hub) =>
    let events := tr.map MainEvent.fetchStart
    let existing := snapshotFile.getD []
    match gamesFile with
    | none => some (events, Except.error ())
    | some games =>
      some (events ++ [MainEvent.writeOutput], Except.ok (reconcile games hub existing))

/-- Effective size in the words of the spec (for comparison with
    TagRec.effSize): the primary size when positive, else the sum of the
    sub-record sizes when a sub-record list is present, else 0. -/
def specEffSize (t : TagRec) : ℚ :=
  if 0 < t.fullSize0 then (t.fullSize0 : ℚ)
  else if t.images ≠ [] then t.imagesSum else 0

/-- Resolution precedence of the reconciler: the fresh aggregation, then
    the prior snapshot, then the 0 sentinel. -/
def resolvedValue (hub ex : SizeMap) (id : String) : ℚ :=
  (dictFind id hub).getD ((dictFind id ex).getD 0)

/-- A page at which the crawl stops: terminal fetch failure, an empty
    results list, or a falsy next indicator. -/
def stopsAt (env : Env) (p : ℕ) : Prop :=
  match (fetchPage (env p)).2 with
  | none => True
  | some d => d.results = [] ∨ d.next = false

/-- What one page contributes to the aggregation: nothing on terminal
    failure, its absorbed results otherwise. -/
def pageAbsorb (env : Env) (acc : SizeMap) (p : ℕ) : SizeMap :=
  match (fetchPage (env p)).2 with
  | none => acc
  | some d => absorbPage acc d.results

/-- Registry behaviour answering every attempt of every page at once
    with an empty results list and no next page. -/
def envEmptyFirstPage : Env := fun _ _ => some { results := [], next := false }

/-- Attempt outcomes failing the initial attempt and the first two
    retries, succeeding on the third retry. -/
def attFail3 : Attempts :=
  fun i => if i = 3 then some { results := [], next := false } else none

/-- A tag of exactly 1 byte. -/
def tagTiny : TagRec := { name := "a", full_size := some 1, images := [] }

/-- A tag of exactly 3 GB. -/
def tag3GB : TagRec := { name := "a", full_size := some 3221225472, images := [] }

/-- A tag with a negative primary size and a nonempty images list. -/
def tagNegative : TagRec :=
  { name := "a", full_size := some (-5), images := [{ size := some 7 }] }

/-- A tag with no size information at all. -/
def tagUnknown : TagRec := { name := "a", full_size := none, images := [] }

/-- A two-entry aggregated mapping. -/
def hubPair : SizeMap := [("a", 5), ("b", 7)]

theorem dictFind_dictInsert (m : SizeMap) (k : String) (v : ℚ) (x : String) :
    dictFind x (dictInsert m k v) = if x = k then some v else dictFind x m := by
  induction m with
  | nil =>
    rcases eq_or_ne x k with h | h
    · subst h; simp [dictInsert, dictFind]
    · simp [dictInsert, dictFind, h, Ne.symm h]
  | cons hd tl ih =>
    obtain ⟨a, b⟩ := hd
    rcases eq_or_ne a k with hak | hak
    · subst hak
      rcases eq_or_ne x a with hx | hx
      · subst hx; simp [dictInsert, dictFind]
      · simp [dictInsert, dictFind, hx, Ne.symm hx]
    · rcases eq_or_ne x a with hx | hx
      · subst hx
        simp [dictInsert, dictFind, hak, Ne.symm hak]
      · simp [dictInsert, dictFind, hak, Ne.symm hx, ih]

theorem mem_dictKeys_dictInsert (m : SizeMap) (k : String) (v : ℚ) (x : String) :
    x ∈ dictKeys (dictInsert m k v) ↔ x = k ∨ x ∈ dictKeys m := by
  induction m with
  | nil => simp [dictInsert, dictKeys]
  | cons hd tl ih =>
    obtain ⟨a, b⟩ := hd
    rcases eq_or_ne a k with hak | hak
    · subst hak; simp [dictInsert, dictKeys]
    · simp only [dictInsert, dictKeys, if_neg hak, List.map_cons, List.mem_cons]
      rw [dictKeys] at ih
      rw [ih]
      tauto

theorem nodup_dictKeys_dictInsert (m : SizeMap) (k : String) (v : ℚ)
    (h : (dictKeys m).Nodup) : (dictKeys (dictInsert m k v)).Nodup := by
  induction m with
  | nil => simp [dictInsert, dictKeys]
  | cons hd tl ih =>
    obtain ⟨a, b⟩ := hd
    simp only [dictKeys, List.map_cons, List.nodup_cons] at h
    rcases eq_or_ne a k with hak | hak
    · subst hak
      simpa [dictInsert, dictKeys] using h
    · simp only [dictInsert, if_neg hak, dictKeys, List.map_cons, List.nodup_cons]
      refine ⟨fun hmem => ?_, ih h.2⟩
      rw [show (dictInsert tl k v).map Prod.fst = dictKeys (dictInsert tl k v) from rfl,
        mem_dictKeys_dictInsert] at hmem
      rcases hmem with rfl | hmem
      · exact hak rfl
      · exact h.1 hmem

theorem dictInsert_of_notMem (m : SizeMap) (k : String) (v : ℚ)
    (h : k ∉ dictKeys m) : dictInsert m k v = m ++ [(k, v)] := by
  induction m with
  | nil => simp [dictInsert]
  | cons hd tl ih =>
    obtain ⟨a, b⟩ := hd
    simp only [dictKeys, List.map_cons, List.mem_cons] at h
    push_neg at h
    simp only [dictInsert, if_neg (Ne.symm h.1), List.cons_append, List.cons.injEq, true_and]
    exact ih h.2

theorem dictFind_append_of_notMem (pre rest : SizeMap) (k : String)
    (h : k ∉ dictKeys pre) : dictFind k (pre ++ rest) = dictFind k rest := by
  induction pre with
  | nil => simp
  | cons hd tl ih =>
    obtain ⟨a, b⟩ := hd
    simp only [dictKeys, List.map_cons, List.mem_cons] at h
    push_neg at h
    simp only [List.cons_append, dictFind, if_neg (Ne.symm h.1)]
    exact ih h.2

theorem reconcileAux_cons (hub ex : SizeMap) (id : String) (rest : List String)
    (final : SizeMap) (found missing : ℕ) :
    reconcileAux hub ex (id :: rest) final found missing =
      reconcileAux hub ex rest (dictInsert final id (resolvedValue hub ex id))
        (if (dictFind id hub).isSome then found + 1 else found)
        (if (dictFind id hub).isSome then missing else missing + 1) := by
  rcases h : dictFind id hub with _ | v
  · rcases h2 : dictFind id ex with _ | w
    · simp [reconcileAux, resolvedValue, h, h2]
    · simp [reconcileAux, resolvedValue, h, h2]
  · simp [reconcileAux, resolvedValue, h]

theorem reconcileAux_counts_sum (hub ex : SizeMap) :
    ∀ (ids : List String) (final : SizeMap) (found missing : ℕ),
      (reconcileAux hub ex ids final found missing).2.1 +
        (reconcileAux hub ex ids final found missing).2.2 =
        found + missing + ids.length := by
  intro ids
  induction ids with
  | nil => intro final found missing; simp [reconcileAux]
  | cons id rest ih =>
    intro final found missing
    rw [reconcileAux_cons]
    rcases h : (dictFind id hub).isSome with _ | _ <;>
      simp only [h, if_true, if_false, Bool.false_eq_true, ite_true, ite_false] <;>
      rw [ih] <;> simp <;> omega

theorem reconcileAux_missing_count (hub ex : SizeMap) :
    ∀ (ids : List String) (final : SizeMap) (found missing : ℕ),
      (reconcileAux hub ex ids final found missing).2.2 =
        missing + ids.countP (fun id => (dictFind id hub).isNone) := by
  intro ids
  induction ids with
  | nil => intro final found missing; simp [reconcileAux]
  | cons id rest ih =>
    intro final found missing
    rw [reconcileAux_cons, List.countP_cons]
    rcases h : dictFind id hub with _ | v <;>
      simp only [h, Option.isSome_none, Option.isSome_some, Option.isNone_none,
        Option.isNone_some, if_true, if_false, Bool.false_eq_true, ite_true, ite_false,
        decide_True, decide_False] <;> rw [ih] <;> omega

theorem reconcileAux_dictFind (hub ex : SizeMap) :
    ∀ (ids : List String) (final : SizeMap) (found missing : ℕ) (x : String),
      dictFind x (reconcileAux hub ex ids final found missing).1 =
        if x ∈ ids then some (resolvedValue hub ex x) else dictFind x final := by
  intro ids
  induction ids with
  | nil => intro final found missing x; simp [reconcileAux]
  | cons id rest ih =>
    intro final found missing x
    rw [reconcileAux_cons, ih, dictFind_dictInsert]
    by_cases hr : x ∈ rest
    · simp [hr]
    · by_cases hx : x = id
      · subst hx; simp [hr]
      · simp [hr, hx]

theorem reconcileAux_mem_keys (hub ex : SizeMap) :
    ∀ (ids : List String) (final : SizeMap) (found missing : ℕ) (x : String),
      x ∈ dictKeys (reconcileAux hub ex ids final found missing).1 ↔
        x ∈ ids ∨ x ∈ dictKeys final := by
  intro ids
  induction ids with
  | nil => intro final found missing x; simp [reconcileAux]
  | cons id rest ih =>
    intro final found missing x
    rw [reconcileAux_cons, ih, mem_dictKeys_dictInsert]
    simp only [List.mem_cons]
    tauto

theorem reconcileAux_nodup_keys (hub ex : SizeMap) :
    ∀ (ids : List String) (final : SizeMap) (found missing : ℕ),
      (dictKeys final).Nodup →
      (dictKeys (reconcileAux hub ex ids final found missing).1).Nodup := by
  intro ids
  induction ids with
  | nil => intro final found missing h; simpa [reconcileAux] using h
  | cons id rest ih =>
    intro final found missing h
    rw [reconcileAux_cons]
    exact ih _ _ _ (nodup_dictKeys_dictInsert _ _ _ h)

theorem reconcileAux_self (hub : SizeMap) :
    ∀ (t pre : SizeMap) (found missing : ℕ),
      hub = pre ++ t → (dictKeys hub).Nodup →
      reconcileAux hub hub (dictKeys t) pre found missing =
        (hub, found + t.length, missing) := by
  intro t
  induction t with
  | nil =>
    intro pre found missing heq hnd
    simp [dictKeys, reconcileAux, heq]
  | cons hd t' ih =>
    obtain ⟨k, v⟩ := hd
    intro pre found missing heq hnd
    have hk : k ∉ dictKeys pre := by
      intro hmem
      rw [heq] at hnd
      have hsplit : dictKeys (pre ++ (k, v) :: t') = dictKeys pre ++ k :: dictKeys t' := by
        simp [dictKeys]
      rw [hsplit] at hnd
      exact (List.nodup_append.mp hnd).2.2 hmem (List.mem_cons_self k _)
    have hfind : dictFind k hub = some v := by
      rw [heq, dictFind_append_of_notMem _ _ _ hk]
      simp [dictFind]
    have hkeys : dictKeys ((k, v) :: t') = k :: dictKeys t' := rfl
    rw [hkeys, reconcileAux_cons, hfind]
    simp only [Option.isSome_some, if_true, ite_true]
    have hres : resolvedValue hub hub k = v := by
      simp [resolvedValue, hfind]
    rw [hres, dictInsert_of_notMem pre k v hk]
    have happ : hub = (pre ++ [(k, v)]) ++ t' := by rw [heq]; simp
    rw [ih (pre ++ [(k, v)]) (found + 1) missing happ hnd]
    have : found + 1 + t'.length = found + ((k, v) :: t').length := by
      simp [List.length_cons]; omega
    rw [this]

theorem effSize_pos_eq_spec (t : TagRec) (h : 0 < t.effSize) :
    t.effSize = specEffSize t := by
  by_cases hfs : t.fullSize0 = 0
  · rw [TagRec.effSize, if_pos hfs] at h ⊢
    by_cases him : t.images = []
    · rw [if_pos him] at h
      exact absurd h (lt_irrefl 0)
    · rw [if_neg him] at h ⊢
      rw [specEffSize, if_neg (by rw [hfs]; exact lt_irrefl 0), if_pos him]
  · rw [TagRec.effSize, if_neg hfs] at h ⊢
    have hpos : 0 < t.fullSize0 := by exact_mod_cast h
    rw [specEffSize, if_pos hpos]

theorem crawlAux_spec (env : Env) :
    ∀ (fuel page : ℕ) (acc : SizeMap) (tr : List ℕ) (m : SizeMap),
      crawlAux env fuel page acc = some (tr, m) →
      ∃ k, 1 ≤ k ∧ tr = List.range' page k ∧
        (∀ i, i + 1 < k → ¬ stopsAt env (page + i)) ∧
        stopsAt env (page + (k - 1)) ∧
        m = tr.foldl (pageAbsorb env) acc := by
  intro fuel
  induction fuel with
  | zero => intro page acc tr m h; simp [crawlAux] at h
  | succ n ih =>
    intro page acc tr m h
    rcases hd : (fetchPage (env page)).2 with _ | d
    · simp only [crawlAux, hd] at h
      obtain ⟨rfl, rfl⟩ := Prod.mk.injEq .. ▸ Option.some.inj h
      refine ⟨1, le_refl 1, by simp, fun i hi => absurd hi (by omega), ?_, ?_⟩
      · simp [stopsAt, hd]
      · simp [pageAbsorb, hd]
    · by_cases hres : d.results = []
      · simp only [crawlAux, hd, if_pos hres] at h
        obtain ⟨rfl, rfl⟩ := Prod.mk.injEq .. ▸ Option.some.inj h
        refine ⟨1, le_refl 1, by simp, fun i hi => absurd hi (by omega), ?_, ?_⟩
        · simp [stopsAt, hd, hres]
        · simp [pageAbsorb, hd, hres, absorbPage]
      · rcases hnext : d.next with _ | _
        · simp only [crawlAux, hd, if_neg hres, hnext, Bool.false_eq_true, if_false,
            ite_false] at h
          obtain ⟨rfl, rfl⟩ := Prod.mk.injEq .. ▸ Option.some.inj h
          refine ⟨1, le_refl 1, by simp, fun i hi => absurd hi (by omega), ?_, ?_⟩
          · simp [stopsAt, hd, hnext]
          · simp [pageAbsorb, hd]
        · simp only [crawlAux, hd, if_neg hres, hnext, if_true, ite_true] at h
          rcases hrec : crawlAux env n (page + 1) (absorbPage acc d.results)
            with _ | ⟨tr', m'⟩
          · rw [hrec] at h; exact absurd h (by simp)
          · rw [hrec] at h
            obtain ⟨rfl, rfl⟩ := Prod.mk.injEq .. ▸ Option.some.inj h
            obtain ⟨k', hk1, htr', hns, hstop, hm⟩ := ih (page + 1) _ tr' m' hrec
            refine ⟨k' + 1, by omega, ?_, ?_, ?_, ?_⟩
            · rw [htr']
              exact (List.range'_succ page k' 1).symm
            · intro i hi
              match i with
              | 0 =>
                simp [stopsAt, hd, hres, hnext]
              | j + 1 =>
                have harith : page + (j + 1) = page + 1 + j := by omega
                rw [harith]
                exact hns j (by omega)
            · have harith : page + (k' + 1 - 1) = page + 1 + (k' - 1) := by omega
              rw [harith]
              exact hstop
            · have hfold : (page :: tr').foldl (pageAbsorb env) acc =
                  tr'.foldl (pageAbsorb env) (absorbPage acc d.results) := by
                simp [List.foldl_cons, pageAbsorb, hd]
              rw [hfold]
              exact hm

/-- C1: for every expected id processed by the reconciler, the final
    mapping binds it to the aggregated value when the id is a key of the
    fresh aggregation, else to the prior snapshot value when the snapshot
    has it, else to 0; missing_count counts exactly the processed ids
    absent from the aggregation, regardless of the fallback outcome; and
    on the concrete scenario with expected ids ["a","b","c"], aggregation
    {"a": 5}, prior snapshot {"b": 3.2}, the result is
    {"a": 5, "b": 3.2, "c": 0} with missing_count = 2. -/
theorem reconcile_precedence_and_missing (games : List String) (hub ex : SizeMap) :
    (∀ id ∈ games, dictFind id (reconcile games hub ex).1 =
        some (resolvedValue hub ex id)) ∧
    (reconcile games hub ex).2.2 =
      games.countP (fun id => (dictFind id hub).isNone) ∧
    reconcile ["a", "b", "c"] [("a", 5)] [("b", 16 / 5)] =
      ([("a", 5), ("b", 16 / 5), ("c", 0)], 1, 2) := by
  refine ⟨?_, ?_, rfl⟩
  · intro id hid
    rw [reconcile, reconcileAux_dictFind, if_pos hid]
  · simpa [reconcile] using reconcileAux_missing_count hub ex games [] 0 0

theorem reconcile_precedence_and_missing_witness :
    dictFind "b" (reconcile ["a", "b", "c"] [("a", 5)] [("b", 16 / 5)]).1 =
      some (resolvedValue [("a", 5)] [("b", 16 / 5)] "b") :=
  (reconcile_precedence_and_missing ["a", "b", "c"] [("a", 5)] [("b", 16 / 5)]).1
    "b" (by simp)

/-- C2: absorbing a tag record with a nonempty name and positive
    effective size inserts name -> round(effective / 1024^3, 2), where
    the effective size agrees with the spec description (primary size
    when positive, else the sum of the image sub-record sizes when a
    sub-record list is present, else 0); a record whose name is empty or
    missing contributes no entry regardless of its size. -/
theorem absorb_inserts_rounded_gb (m : SizeMap) (t : TagRec) :
    (t.name = "" → absorbTag m t = m) ∧
    (t.name ≠ "" → 0 < t.effSize →
      absorbTag m t =
        dictInsert m t.name (round2 (specEffSize t / (1024 ^ 3 : ℚ)))) := by
  constructor
  · intro h
    simp [absorbTag, h]
  · intro hn hpos
    rw [absorbTag, if_pos ⟨hn, hpos⟩, effSize_pos_eq_spec t hpos]

theorem absorb_inserts_rounded_gb_witness :
    absorbTag [] tag3GB =
      dictInsert [] tag3GB.name (round2 (specEffSize tag3GB / (1024 ^ 3 : ℚ))) :=
  (absorb_inserts_rounded_gb [] tag3GB).2 (by decide)
    (by norm_num [tag3GB, TagRec.effSize, TagRec.fullSize0])

/-- C3: the key set of the final mapping is exactly the expected id set:
    membership in the final mapping's keys coincides with membership in
    the raw games list (so every expected id is present even when absent
    from both sources, and aggregation-only ids are dropped), and the
    keys are duplicate-free. -/
theorem final_keys_eq_expected (games : List String) (hub ex : SizeMap) :
    (∀ x, x ∈ dictKeys (reconcile games hub ex).1 ↔ x ∈ games) ∧
    (dictKeys (reconcile games hub ex).1).Nodup := by
  constructor
  · intro x
    rw [reconcile, reconcileAux_mem_keys]
    simp [dictKeys]
  · exact reconcileAux_nodup_keys _ _ _ _ _ _ (by simp [dictKeys])

/-- C9: found_count + missing_count equals the number of records in the
    raw games list, counting duplicate ids once per occurrence, while the
    final mapping holds exactly one key per distinct id; concretely the
    games list ["a","a"] with aggregation {"a": 1} gives counts summing
    to 2 over a single-key final mapping, so the deduplicated id set does
    not drive reconciliation. -/
theorem counts_per_record_occurrence (games : List String) (hub ex : SizeMap) :
    (reconcile games hub ex).2.1 + (reconcile games hub ex).2.2 = games.length ∧
    (dictKeys (reconcile games hub ex).1).Nodup ∧
    (∀ x, x ∈ dictKeys (reconcile games hub ex).1 ↔ x ∈ games) ∧
    reconcile ["a", "a"] [("a", 1)] [] = ([("a", 1)], 2, 0) := by
  refine ⟨?_, ?_, ?_, rfl⟩
  · simpa [reconcile] using reconcileAux_counts_sum hub ex games [] 0 0
  · exact reconcileAux_nodup_keys _ _ _ _ _ _ (by simp [dictKeys])
  · intro x
    rw [reconcile, reconcileAux_mem_keys]
    simp [dictKeys]

/-- C10: on records whose full_size is absent or an integer and whose
    image entries carry an optional numeric size, absorption is a total
    function (the embedding), and the fallback to the images sum triggers
    exactly when the primary size reads as 0 (an absent full_size reads
    as 0) and for no other value, negative values included. -/
theorem fallback_trigger (t : TagRec) :
    (t.fullSize0 ≠ 0 → t.effSize = (t.fullSize0 : ℚ)) ∧
    (t.fullSize0 = 0 → t.images ≠ [] → t.effSize = t.imagesSum) ∧
    (t.fullSize0 = 0 → t.images = [] → t.effSize = 0) ∧
    (t.full_size = none → t.fullSize0 = 0) := by
  refine ⟨?_, ?_, ?_, ?_⟩
  · intro h
    rw [TagRec.effSize, if_neg h]
  · intro h him
    rw [TagRec.effSize, if_pos h, if_neg him]
  · intro h him
    rw [TagRec.effSize, if_pos h, if_pos him]
  · intro h
    rw [TagRec.fullSize0, h]
    rfl

theorem fallback_trigger_witness :
    tagNegative.effSize = (tagNegative.fullSize0 : ℚ) :=
  (fallback_trigger tagNegative).1 (by decide)

/-- C4 (amended): a tag whose effective size is 0 is never inserted into
    the aggregated mapping; however a key of the aggregated mapping may
    still map to the value 0, because a positive effective size below
    0.005 GB rounds to 0.00 when converted. -/
theorem zero_effective_size_not_inserted (m : SizeMap) (t : TagRec)
    (h : t.effSize = 0) : absorbTag m t = m := by
  rw [absorbTag, if_neg]
  rintro ⟨-, hpos⟩
  rw [h] at hpos
  exact lt_irrefl 0 hpos

theorem zero_effective_size_not_inserted_witness :
    absorbTag [("b", 2)] tagUnknown = [("b", 2)] :=
  zero_effective_size_not_inserted [("b", 2)] tagUnknown
    (by simp [tagUnknown, TagRec.effSize, TagRec.fullSize0])

/-- C4 counterexample: a tag record of exactly 1 byte has positive
    effective size, is therefore inserted, and its stored value is 0
    after the 2-decimal GB rounding — so the aggregated mapping does bind
    a key to the value 0, refuting the stated invariant that zero is
    never a stored value at the aggregation stage. -/
theorem aggregated_zero_value_cex :
    absorbTag [] tagTiny = [("a", 0)] ∧
    dictFind "a" (absorbTag [] tagTiny) = some 0 := by
  have h : absorbTag [] tagTiny = [("a", 0)] := by
    norm_num [tagTiny, absorbTag, TagRec.effSize, TagRec.fullSize0, round2,
      pyRoundInt, dictInsert]
    decide
  exact ⟨h, by rw [h]; simp [dictFind]⟩

/-- C5: whenever the crawl terminates, the pages it fetched form the
    contiguous range 1..k in strictly increasing order; after any page
    with a terminal fetch failure, an empty results list, or a falsy next
    indicator, page+1 is never fetched; the returned mapping is exactly
    what the fetched pages aggregated so far; and a page-1 response with
    an empty results list yields the empty aggregated mapping. -/
theorem crawl_stop_behaviour (env : Env) (fuel : ℕ) (tr : List ℕ) (m : SizeMap)
    (h : fetch_all_tags env fuel = some (tr, m)) :
    (∃ k, 1 ≤ k ∧ tr = List.range' 1 k) ∧
    (∀ p ∈ tr, stopsAt env p → p + 1 ∉ tr) ∧
    m = tr.foldl (pageAbsorb env) [] ∧
    (∀ d, (fetchPage (env 1)).2 = some d → d.results = [] → m = []) := by
  obtain ⟨k, hk1, htr, hns, hstop, hm⟩ := crawlAux_spec env fuel 1 [] tr m h
  refine ⟨⟨k, hk1, htr⟩, ?_, hm, ?_⟩
  · intro p hp hstops hp1
    rw [htr, List.mem_range'_1] at hp hp1
    have hi : p - 1 + 1 < k := by omega
    have hnostop := hns (p - 1) hi
    have heq : 1 + (p - 1) = p := by omega
    rw [heq] at hnostop
    exact hnostop hstops
  · intro d hd hres
    cases fuel with
    | zero => simp [fetch_all_tags, crawlAux] at h
    | succ n =>
      simp only [fetch_all_tags, crawlAux, hd, if_pos hres] at h
      obtain ⟨-, rfl⟩ := Prod.mk.injEq .. ▸ Option.some.inj h
      rfl

theorem crawl_stop_behaviour_witness :
    (∃ k, 1 ≤ k ∧ [1] = List.range' 1 k) ∧
    (∀ p ∈ [1], stopsAt envEmptyFirstPage p → p + 1 ∉ [1]) ∧
    ([] : SizeMap) = [1].foldl (pageAbsorb envEmptyFirstPage) [] ∧
    (∀ d, (fetchPage (envEmptyFirstPage 1)).2 = some d → d.results = [] →
      ([] : SizeMap) = []) :=
  crawl_stop_behaviour envEmptyFirstPage 1 [1] [] rfl

/-- C6: a page fetch whose initial attempt and first two retries fail
    and whose third retry succeeds sleeps exactly 2, 4 and 8 seconds
    between consecutive attempts, in that order, before returning the
    body; every fetch makes at most 3 retry attempts after the initial
    one (at most 3 sleeps); and a fetch whose four attempts all fail is a
    terminal failure. -/
theorem backoff_sleep_sequence (att : Attempts) (d : PageData)
    (h0 : att 0 = none) (h1 : att 1 = none) (h2 : att 2 = none)
    (h3 : att 3 = some d) :
    fetchPage att = ([2, 4, 8], some d) ∧
    (∀ a : Attempts, (fetchPage a).1.length ≤ 3) ∧
    (∀ a : Attempts, (∀ i, i ≤ 3 → a i = none) →
      fetchPage a = ([2, 4, 8], none)) := by
  refine ⟨?_, ?_, ?_⟩
  · simp [fetchPage, retryGo, h0, h1, h2, h3]
  · intro a
    rcases ha0 : a 0 with _ | d0
    · rcases ha1 : a 1 with _ | d1
      · rcases ha2 : a 2 with _ | d2
        · rcases ha3 : a 3 with _ | d3 <;> simp [fetchPage, retryGo, ha0, ha1, ha2, ha3]
        · simp [fetchPage, retryGo, ha0, ha1, ha2]
      · simp [fetchPage, retryGo, ha0, ha1]
    · simp [fetchPage, ha0]
  · intro a ha
    simp [fetchPage, retryGo, ha 0 (by omega), ha 1 (by omega), ha 2 (by omega),
      ha 3 (by omega)]

theorem backoff_sleep_sequence_witness :
    fetchPage attFail3 = ([2, 4, 8], some { results := [], next := false }) :=
  (backoff_sleep_sequence attFail3 { results := [], next := false }
    (by simp [attFail3]) (by simp [attFail3]) (by simp [attFail3]) rfl).1

/-- C7 (amended): when games.json is absent the run is fatal and writes
    no output file, but not immediately: the registry crawl still runs,
    and every terminating run with an absent games file ends in the
    uncaught NameError with no output-write event in its trace. -/
theorem missing_games_fatal_no_write (env : Env) (fuel : ℕ)
    (snap : Option SizeMap) (tr : List MainEvent)
    (out : Except Unit (SizeMap × ℕ × ℕ))
    (h : mainRun none env fuel snap = some (tr, out)) :
    out = Except.error () ∧ MainEvent.writeOutput ∉ tr := by
  rw [mainRun] at h
  rcases hf : fetch_all_tags env fuel with _ | ⟨pages, hub⟩
  · rw [hf] at h
    exact absurd h (by simp)
  · rw [hf] at h
    simp only [Option.some.injEq, Prod.mk.injEq] at h
    obtain ⟨htr, hout⟩ := h
    refine ⟨hout.symm, ?_⟩
    rw [← htr]
    simp

theorem missing_games_fatal_no_write_witness :
    (Except.error () : Except Unit (SizeMap × ℕ × ℕ)) = Except.error () ∧
    MainEvent.writeOutput ∉ [MainEvent.fetchStart 1] :=
  missing_games_fatal_no_write envEmptyFirstPage 1 none
    [MainEvent.fetchStart 1] (Except.error ()) rfl

/-- C7 counterexample: with games.json absent, the run does not
    terminate immediately: it still fetches page 1 from the registry
    before ending in the uncaught NameError, so the trace of the run
    contains a fetch event performed after the missing input was
    detected. -/
theorem missing_games_not_immediate_cex :
    mainRun none envEmptyFirstPage 1 none =
      some ([MainEvent.fetchStart 1], Except.error ()) ∧
    MainEvent.fetchStart 1 ∈ [MainEvent.fetchStart 1] :=
  ⟨rfl, List.mem_singleton_self _⟩

/-- C8 (amended): reconciling an aggregated mapping that exactly matches
    the prior snapshot yields a final mapping identical to that mapping
    and missing_count = 0, provided the expected-id list is exactly the
    mapping's key list; found_count then equals the number of entries. -/
theorem reconcile_idempotent_on_keys (hub : SizeMap)
    (h : (dictKeys hub).Nodup) :
    reconcile (dictKeys hub) hub hub = (hub, hub.length, 0) := by
  have hself := reconcileAux_self hub hub [] 0 0 (by simp) h
  simpa [reconcile] using hself

theorem reconcile_idempotent_on_keys_witness :
    reconcile (dictKeys hubPair) hubPair hubPair = (hubPair, hubPair.length, 0) :=
  reconcile_idempotent_on_keys hubPair (by decide)

/-- C8 counterexample: reconciliation also depends on the expected-id
    list, which the claim leaves unconstrained: with the aggregation
    equal to the prior snapshot {"y": 1} but expected id list ["x"], the
    result is the mapping {"x": 0} with missing_count 1, not the original
    mapping with missing_count 0. -/
theorem reconcile_idempotence_cex :
    reconcile ["x"] [("y", 1)] [("y", 1)] = ([("x", 0)], 0, 1) ∧
    ([("x", 0)] : SizeMap) ≠ [("y", 1)] ∧ (1 : ℕ) ≠ 0 :=
  ⟨rfl, by decide, one_ne_zero⟩
